import Mathlib

/-!
Verification of the inference generation engine of `hf_transformers_go`.

The Go sources are shallowly embedded here:
- `transformers/tensor_helpers.go`: `argmaxF32` (only the ordering of the
  float32 logits matters to the claims, so logit values are modelled as `Int`).
- `transformers/model.go`: `Generate` / `generateSimpleCausal` (the decoding
  loop), `zeroTensorForInput`, and the per-step tensor construction/release
  accounting of the loop body.
- `transformers/types.go`: `lfm2IONames`.
- `transformers/hub.go`: the pipeline facade's resolution of the
  `max_new_tokens` call option.

The external ONNX execution engine and the tokenizer are collaborators with
fixed interfaces; they are modelled by an `Engine` record of functions: `run`
stands for the per-step tensor construction + `session.Run` + logits lookup
(any construction/execution/missing-logits failure is its `Except.error`
outcome), and `decode` stands for `tokenizer.Decode` on a single token id
(`none` models a decode error). Text is modelled as `List Char`; Go's byte
index in `strings.Index` corresponds to the character index here.
-/

namespace HfTransformersGo

/-- Model of `argmaxF32`'s scanning loop (`tensor_helpers.go` lines 27-34):
`maxVal` is the running maximum, `i` the index being examined, `best` the
index of the running maximum; entries strictly greater replace it. -/
def argmaxGo : List Int → Int → Nat → Nat → Nat
  | [], _, _, best => best
  | x :: rest, maxVal, i, best =>
    if x > maxVal then argmaxGo rest x (i + 1) i
    else argmaxGo rest maxVal (i + 1) best

/-- Model of `argmaxF32` (`tensor_helpers.go`): index of the largest value,
ties broken by lowest index; `0` on the empty list. -/
def argmaxF32 (xs : List Int) : Nat :=
  match xs with
  | [] => 0
  | x :: rest => argmaxGo rest x 1 0

/-- Model of Go `strings.Index(hay, needle)`: the first index at which
`needle` occurs in `hay`, or `none`. -/
def stringsIndex : List Char → List Char → Option Nat
  | [], needle => if needle.isPrefixOf ([] : List Char) then some 0 else none
  | c :: t, needle =>
    if needle.isPrefixOf (c :: t) then some 0
    else (stringsIndex t needle).map (· + 1)

/-- Model of Go `strings.Contains` (defined in Go via `strings.Index`). -/
def goContains (hay needle : List Char) : Bool :=
  (stringsIndex hay needle).isSome

/-- Model of the stop-sequence scan of `generateSimpleCausal`
(`model.go` lines 287-298): for the first non-empty stop string occurring in
the accumulated text, truncate the text at the first occurrence, clear the
delta text, and report the stop as hit. Returns
(new full text, new delta text, stopHit). -/
def applyStops : List (List Char) → List Char → List Char → List Char × List Char × Bool
  | [], fullText, deltaText => (fullText, deltaText, false)
  | stop :: rest, fullText, deltaText =>
    if stop = [] then applyStops rest fullText deltaText
    else
      match stringsIndex fullText stop with
      | some idx => (fullText.take idx, [], true)
      | none => applyStops rest fullText deltaText

/-- Model of `PipelineStreamEvent` (`types.go`). -/
structure PipelineStreamEvent where
  tokenID : Int
  deltaText : List Char
  fullText : List Char
  step : Nat
  done : Bool

/-- Model of `GenerationOptions` (`model.go`). -/
structure GenerationOptions where
  maxNewTokens : Int
  doSample : Bool
  streamer : Option (PipelineStreamEvent → Bool)
  stopSequences : List (List Char)

/-- The external collaborators of one generation session: `eosID` is
`config.EOS_TOKEN_ID()`; `decode` models `tokenizer.Decode` on a single id
(`none` on decode error); `run step curIDs curMask` models tensor assembly,
`session.Run`, and extraction of the logits tensor, returning the logits
shape and raw row-major data (`Except.error` models any construction,
execution, missing-logits or logits-type failure, each of which aborts the
call). -/
structure Engine where
  eosID : Int
  decode : Int → Option (List Char)
  run : Nat → List Int → List Int → Except String (List Int × List Int)

/-- The per-call mutable state of `generateSimpleCausal`: the growing id
sequence, the growing attention mask, the generated ids, and the
accumulated decoded text. -/
structure LoopState where
  curIDs : List Int
  curMask : List Int
  generated : List Int
  fullText : List Char
deriving DecidableEq

/-- Model of `generateSimpleCausal`'s per-step next-token selection
(`model.go` lines 218-271): obtain the logits tensor from the engine, require
rank 3, slice the row of the last position (`start = (len(curIDs)-1) *
vocabSize`), and take the arg-max. A Go slice `raw[start:start+vocabSize]`
with negative or out-of-range bounds aborts the call; that abort is modelled
as an `Except.error`. -/
def selectNext (eng : Engine) (step : Nat) (curIDs curMask : List Int) : Except String Int :=
  match eng.run step curIDs curMask with
  | .error e => .error e
  | .ok (shape, raw) =>
    if shape.length ≠ 3 then .error "unexpected logits shape"
    else
      let vocabSize : Int := shape.getD 2 0
      let start : Int := ((curIDs.length : Int) - 1) * vocabSize
      if start < 0 ∨ vocabSize < 0 ∨ start + vocabSize > (raw.length : Int) then
        .error "logits slice out of range"
      else
        .ok (argmaxF32 ((raw.drop start.toNat).take vocabSize.toNat))

/-- Model of the text accounting plus stop evaluation of a step
(`model.go` lines 277-298): decode the new token alone into delta text,
best-effort (a decode failure leaves the delta empty and the accumulated
text unchanged), then run the stop-sequence scan. -/
def stepTexts (eng : Engine) (opts : GenerationOptions) (nextID : Int) (st : LoopState) :
    List Char × List Char × Bool :=
  match eng.decode nextID with
  | some txt => applyStops opts.stopSequences (st.fullText ++ txt) txt
  | none => applyStops opts.stopSequences st.fullText []

/-- One iteration of the decoding loop body (`model.go` lines 168-317): select
the next token, append it to the sequence and `1` to the mask, do text
accounting and stop evaluation, compute the end-of-sequence condition,
dispatch to the streamer. Returns the updated state and whether the loop
exits after this step (streamer cancellation, end of sequence, or stop hit). -/
def stepOutcome (eng : Engine) (opts : GenerationOptions) (step : Nat) (st : LoopState) :
    Except String (LoopState × Bool) :=
  match selectNext eng step st.curIDs st.curMask with
  | .error e => .error e
  | .ok nextID =>
    let texts := stepTexts eng opts nextID st
    let fullText := texts.1
    let deltaText := texts.2.1
    let stopHit := texts.2.2
    let done := decide (0 ≤ eng.eosID ∧ nextID = eng.eosID)
    let cont :=
      match opts.streamer with
      | none => true
      | some f => f ⟨nextID, deltaText, fullText, step, done || stopHit⟩
    .ok (⟨st.curIDs ++ [nextID], st.curMask ++ [1], st.generated ++ [nextID], fullText⟩,
      !cont || done || stopHit)

/-- The decoding loop of `generateSimpleCausal` (`model.go` lines 168-318),
with `fuel` the remaining iterations of `for step := 0; step < maxNewTokens`
and `step` the current step index. Errors abort the call; otherwise the
generated ids are returned. -/
def genLoop (eng : Engine) (opts : GenerationOptions) : Nat → Nat → LoopState → Except String (List Int)
  | 0, _, st => .ok st.generated
  | fuel + 1, step, st =>
    match stepOutcome eng opts step st with
    | .error e => .error e
    | .ok (st', exit) =>
      if exit then .ok st'.generated else genLoop eng opts fuel (step + 1) st'

/-- Number of loop iterations executed by `genLoop` (an iteration that errors
or exits still counts as one executed iteration). -/
def genLoopSteps (eng : Engine) (opts : GenerationOptions) : Nat → Nat → LoopState → Nat
  | 0, _, _ => 0
  | fuel + 1, step, st =>
    match stepOutcome eng opts step st with
    | .error _ => 1
    | .ok (st', exit) =>
      if exit then 1 else 1 + genLoopSteps eng opts fuel (step + 1) st'

/-- The loop state after `j` completed iterations of the decoding loop
starting from `st0` (`none` once an iteration has errored). -/
def stateAt (eng : Engine) (opts : GenerationOptions) (st0 : LoopState) : Nat → Option LoopState
  | 0 => some st0
  | j + 1 =>
    match stateAt eng opts st0 j with
    | none => none
    | some st =>
      match stepOutcome eng opts j st with
      | .error _ => none
      | .ok (st', _) => some st'

/-- Model of `generateSimpleCausal` (`model.go`): run the decoding loop for at
most `maxNewTokens` steps starting from the prompt ids and mask, and wrap the
generated ids as a batch of one. -/
def generateSimpleCausal (eng : Engine) (curIDs curMask : List Int) (opts : GenerationOptions) :
    Except String (List (List Int)) :=
  (genLoop eng opts opts.maxNewTokens.toNat 0 ⟨curIDs, curMask, [], []⟩).map fun g => [g]

/-- Model of the `maxNewTokens` normalization of `Generate`
(`model.go` lines 138-140): a non-positive value is replaced by 128. -/
def normalizeMaxNewTokens (m : Int) : Int :=
  if m ≤ 0 then 128 else m

/-- Model of `Generate` (`model.go` lines 123-153): batch size must be 1
(only the outer batch dimension is checked), `maxNewTokens` is normalized,
and every preset delegates to `generateSimpleCausal`. -/
def Generate (eng : Engine) (inputIDs attentionMask : List (List Int))
    (opts : GenerationOptions) : Except String (List (List Int)) :=
  if inputIDs.length ≠ 1 ∨ attentionMask.length ≠ 1 then
    .error "Generate: only batch=1 is supported currently"
  else
    generateSimpleCausal eng (inputIDs.headD []) (attentionMask.headD [])
      { opts with maxNewTokens := normalizeMaxNewTokens opts.maxNewTokens }

/-- Construction oracle for the tensor accounting of one decoding step: which
of the step's tensor constructions succeed (`idsOk` for the `input_ids`
tensor, `maskOk` for `attention_mask`, `posOk` for `position_ids`, `zeroOk`
per remaining input name for `zeroTensorForInput`) and whether `session.Run`
succeeds. -/
structure StepOracle where
  idsOk : Bool
  maskOk : Bool
  posOk : Bool
  zeroOk : String → Bool
  runOk : Bool

/-- Accounting model of the input-name loop of a decoding step
(`model.go` lines 180-214), after the `input_ids` and `attention_mask`
tensors have been built. Arguments: remaining input names and the current
size of `toDestroy`. Returns `(some finalToDestroySize | none on failure,
tensors constructed inside the loop, tensors released inside the loop)`.
On a `position_ids` construction failure the code releases only the
`input_ids` and `attention_mask` tensors (2 releases); on a zero-tensor
construction failure it also releases everything in `toDestroy`. -/
def assembleNames (o : StepOracle) : List String → Nat → Option Nat × Nat × Nat
  | [], toDestroy => (some toDestroy, 0, 0)
  | name :: rest, toDestroy =>
    if name = "input_ids" ∨ name = "attention_mask" then assembleNames o rest toDestroy
    else if name = "position_ids" then
      if o.posOk then
        let r := assembleNames o rest (toDestroy + 1)
        (r.1, r.2.1 + 1, r.2.2)
      else (none, 0, 2)
    else
      if o.zeroOk name then
        let r := assembleNames o rest (toDestroy + 1)
        (r.1, r.2.1 + 1, r.2.2)
      else (none, 0, 2 + toDestroy)

/-- Accounting model of one whole decoding step (`model.go` lines 168-231):
`(step succeeded, input tensors constructed, input tensors released)`. The
`input_ids` and `attention_mask` tensors are built first (a failure of either
releases what was already built); then the input-name loop runs; finally,
whether `session.Run` fails or succeeds, the code releases the `input_ids`
and `attention_mask` tensors and everything in `toDestroy`. -/
def stepTensorCount (o : StepOracle) (names : List String) : Bool × Nat × Nat :=
  if !o.idsOk then (false, 0, 0)
  else if !o.maskOk then (false, 1, 1)
  else
    match assembleNames o names 0 with
    | (none, c, r) => (false, 2 + c, r)
    | (some toDestroy, c, r) => (o.runOk, 2 + c, r + (2 + toDestroy))

/-- Model of `lfm2IONames` (`types.go` lines 119-153). The argument models
the config: `none` is a nil config, `some layerTypes` carries
`cfg.LayerTypes()`. Inputs start with the three core names; each
`full_attention` layer contributes a key and a value name indexed by layer,
each `conv` layer a single cache name; any other layer type is an error.
Outputs are `logits` followed by each non-core input prefixed with
`present.`. -/
def lfm2IONames (cfg : Option (List String)) : Except String (List String × List String) :=
  match cfg with
  | none => .error "lfm2IONames: config is nil"
  | some layerTypes =>
    let rec build : Nat → List String → Except String (List String)
      | _, [] => .ok []
      | layerIdx, t :: rest =>
        match t with
        | "full_attention" =>
          (build (layerIdx + 1) rest).map fun tail =>
            ("past_key_values." ++ toString layerIdx ++ ".key") ::
            ("past_key_values." ++ toString layerIdx ++ ".value") :: tail
        | "conv" =>
          (build (layerIdx + 1) rest).map fun tail =>
            ("past_conv." ++ toString layerIdx) :: tail
        | _ => .error ("lfm2IONames: unsupported layer type " ++ t)
    (build 0 layerTypes).map fun extra =>
      let inputs := "input_ids" :: "attention_mask" :: "position_ids" :: extra
      let outputs := "logits" :: (inputs.filterMap fun name =>
        if name = "input_ids" ∨ name = "attention_mask" ∨ name = "position_ids" then none
        else some ("present." ++ name))
      (inputs, outputs)

/-- Element type of a declared graph input. The Go switch on `info.DataType`
(`model.go` lines 371-386) builds int64 zeros for the int64 type and float32
zeros for every other type, so every non-int64 type is modelled by
`float32`. -/
inductive TensorElemType
  | int64
  | float32
deriving DecidableEq

/-- Model of the `onnx.InputOutputInfo` fields `zeroTensorForInput` reads:
the declared dimensions (non-positive = dynamic/undefined) and element
type. -/
structure InputOutputInfo where
  dims : List Int
  dataType : TensorElemType
deriving DecidableEq

/-- A zero-filled tensor built by `zeroTensorForInput`: typed all-zero data
plus its shape. -/
inductive GoTensor
  | int64s (data : List Int) (shape : List Int)
  | float32s (data : List Int) (shape : List Int)
deriving DecidableEq

/-- One entry of the shape computed by `zeroTensorForInput`
(`model.go` lines 352-369): a positive declared dimension is kept; for a
non-positive one, the base value is 1 for the leading dimension, 0 on a
cache input, else 1 — and then, on a non-cache input, the trailing
dimension is overridden with `seqLen` when `seqLen > 0`. `total` is the
number of declared dimensions, `i` the index of this one. -/
def zeroDimEntry (isCache : Bool) (total i seqLen : Nat) (d : Int) : Int :=
  if d ≤ 0 then
    let base : Int := if i = 0 then 1 else if isCache then 0 else 1
    if isCache = false ∧ i = total - 1 ∧ 0 < seqLen then (seqLen : Int) else base
  else d

/-- The dimension loop of `zeroTensorForInput`, mapping `zeroDimEntry` over
the declared dimensions with their indices starting at `i`. -/
def zeroShapeFrom (isCache : Bool) (total seqLen : Nat) : Nat → List Int → List Int
  | _, [] => []
  | i, d :: rest => zeroDimEntry isCache total i seqLen d :: zeroShapeFrom isCache total seqLen (i + 1) rest

/-- The shape `zeroTensorForInput` derives for declared dimensions `dims`. -/
def zeroShape (isCache : Bool) (dims : List Int) (seqLen : Nat) : List Int :=
  zeroShapeFrom isCache dims.length seqLen 0 dims

/-- Whether an input name carries the cache/past marker
(`model.go` line 351). -/
def isCacheName (name : String) : Bool :=
  goContains name.data "past".data || goContains name.data "cache".data

/-- Model of `zeroTensorForInput` (`model.go` lines 346-387): look up the
declared info for the input name (unknown names are an error), derive the
shape, and build all-zero data of the declared element type whose length is
the product of the shape entries. -/
def zeroTensorForInput (inputInfo : List (String × InputOutputInfo)) (name : String)
    (seqLen : Nat) : Except String GoTensor :=
  match inputInfo.lookup name with
  | none => .error ("Generate: unsupported input name " ++ name)
  | some info =>
    let shape := zeroShape (isCacheName name) info.dims seqLen
    let count := shape.foldl (fun a d => a * d) 1
    match info.dataType with
    | .int64 => .ok (.int64s (List.replicate count.toNat 0) shape)
    | .float32 => .ok (.float32s (List.replicate count.toNat 0) shape)

/-- A dynamically typed call-option value as the pipeline facade sees it
(`hub.go` lines 254-261): a Go `int`, a Go `float64` (represented by the
integer that `int(t)` converts it to, the only use the code makes of it), or
a value of any other type. -/
inductive GoValue
  | int (n : Int)
  | float (q : Rat)
  | other
deriving DecidableEq

/-- Model of Go conversion `int(t)` of a float64 `t` (`hub.go` line 259):
truncation toward zero (floor for non-negative values, ceiling for negative
ones). Every float64 value is a dyadic rational, so float64 values are
modelled as rationals; conversion of values outside the int range is
undefined behaviour in Go and out of scope. -/
def float64ToInt (q : Rat) : Int :=
  if 0 ≤ q then ⌊q⌋ else ⌈q⌉

/-- Model of the pipeline facade's resolution of `max_new_tokens`
(`hub.go` lines 252-261): default 32 when the option is absent or neither an
int nor a float64; an int is taken as is; a float64 is converted by `int(t)`,
which truncates toward zero. -/
def pipelineMaxNewTokens (v : Option GoValue) : Int :=
  match v with
  | some (.int t) => t
  | some (.float t) => float64ToInt t
  | _ => 32

/-! Concrete test fixtures: a benign engine whose logits always select token
0, variants for end-of-sequence and stop-string scenarios, and small option
records. -/

/-- A benign engine: no end-of-sequence id, decoding always fails (empty
deltas), and the graph returns a well-formed rank-3 logits tensor of zeros
for the current sequence length. -/
def engZero : Engine :=
  ⟨-1, fun _ => none, fun _ ids _ =>
    if ids.length = 0 then .ok ([1, 0, 0], ([] : List Int))
    else .ok ([1, (ids.length : Int), 1], List.replicate ids.length 0)⟩

/-- Like `engZero` but with end-of-sequence id 0, which the arg-max always
selects. -/
def engEos : Engine :=
  ⟨0, fun _ => none, fun _ ids _ =>
    if ids.length = 0 then .ok ([1, 0, 0], ([] : List Int))
    else .ok ([1, (ids.length : Int), 1], List.replicate ids.length 0)⟩

/-- Like `engZero` but every generated token decodes to the text
`STOPxyz`. -/
def engStop : Engine :=
  ⟨-1, fun _ => some "STOPxyz".data, fun _ ids _ =>
    if ids.length = 0 then .ok ([1, 0, 0], ([] : List Int))
    else .ok ([1, (ids.length : Int), 1], List.replicate ids.length 0)⟩

/-- Options: 3 new tokens, greedy, no streamer, no stop strings. -/
def opts0 : GenerationOptions := ⟨3, false, none, []⟩

/-- Options: 3 new tokens, greedy, no streamer, stop string `STOP`. -/
def optsStop : GenerationOptions := ⟨3, false, none, ["STOP".data]⟩

/-- Options: 3 new tokens, greedy, no streamer, and a configured stop string
`ZZZ` — one that never matches a run of `engZero`, whose decode failures
keep the accumulated text empty. -/
def optsZZZ : GenerationOptions := ⟨3, false, none, ["ZZZ".data]⟩

/-- Oracle for the leaking step: every construction succeeds except the
`position_ids` tensor. -/
def oPosFail : StepOracle := ⟨true, true, false, fun _ => true, true⟩

/-- Oracle whose zero-tensor construction fails on every remaining input
name. -/
def oZeroFail : StepOracle := ⟨true, true, true, fun _ => false, true⟩

/-! Helper lemmas about the decoding loop. -/

theorem stepOutcome_ok_spec {eng : Engine} {opts : GenerationOptions} {step : Nat}
    {st st' : LoopState} {e : Bool}
    (h : stepOutcome eng opts step st = .ok (st', e)) :
    ∃ t, st'.curIDs = st.curIDs ++ [t] ∧ st'.curMask = st.curMask ++ [1] ∧
      st'.generated = st.generated ++ [t] := by
  unfold stepOutcome at h
  cases hsel : selectNext eng step st.curIDs st.curMask with
  | error msg => rw [hsel] at h; exact absurd h (by simp)
  | ok t =>
    rw [hsel] at h
    simp only [Except.ok.injEq, Prod.mk.injEq] at h
    exact ⟨t, by rw [← h.1]; exact ⟨rfl, rfl, rfl⟩⟩

theorem genLoop_zero (eng : Engine) (opts : GenerationOptions) (step : Nat) (st : LoopState) :
    genLoop eng opts 0 step st = .ok st.generated := rfl

theorem genLoop_succ_cont {eng : Engine} {opts : GenerationOptions} {step : Nat}
    {st st' : LoopState} (fuel : Nat)
    (h : stepOutcome eng opts step st = .ok (st', false)) :
    genLoop eng opts (fuel + 1) step st = genLoop eng opts fuel (step + 1) st' := by
  simp [genLoop, h]

theorem genLoop_succ_exit {eng : Engine} {opts : GenerationOptions} {step : Nat}
    {st st' : LoopState} (fuel : Nat)
    (h : stepOutcome eng opts step st = .ok (st', true)) :
    genLoop eng opts (fuel + 1) step st = .ok st'.generated := by
  simp [genLoop, h]

theorem genLoopSteps_le (eng : Engine) (opts : GenerationOptions) :
    ∀ (fuel step : Nat) (st : LoopState), genLoopSteps eng opts fuel step st ≤ fuel := by
  intro fuel
  induction fuel with
  | zero => intro step st; simp [genLoopSteps]
  | succ n ih =>
    intro step st
    cases h : stepOutcome eng opts step st with
    | error msg => simp [genLoopSteps, h]
    | ok p =>
      obtain ⟨st', ex⟩ := p
      cases ex with
      | false =>
        simp only [genLoopSteps, h]
        have := ih (step + 1) st'
        simp
        omega
      | true => simp [genLoopSteps, h]

theorem stateAt_succ_ok {eng : Engine} {opts : GenerationOptions} {st0 st st' : LoopState}
    {j : Nat} {e : Bool}
    (hst : stateAt eng opts st0 j = some st)
    (ho : stepOutcome eng opts j st = .ok (st', e)) :
    stateAt eng opts st0 (j + 1) = some st' := by
  simp only [stateAt, hst, ho]

theorem stateAt_generated_length {eng : Engine} {opts : GenerationOptions} {st0 : LoopState} :
    ∀ {j : Nat} {st : LoopState}, stateAt eng opts st0 j = some st →
      st.generated.length = st0.generated.length + j := by
  intro j
  induction j with
  | zero => intro st h; simp only [stateAt, Option.some.injEq] at h; subst h; simp
  | succ n ih =>
    intro st h
    cases hs : stateAt eng opts st0 n with
    | none => simp [stateAt, hs] at h
    | some stn =>
      cases ho : stepOutcome eng opts n stn with
      | error msg => simp [stateAt, hs, ho] at h
      | ok p =>
        obtain ⟨st', ex⟩ := p
        simp only [stateAt, hs, ho, Option.some.injEq] at h
        subst h
        obtain ⟨t, _, _, hg⟩ := stepOutcome_ok_spec ho
        rw [hg]
        have := ih hs
        simp [this]
        omega

theorem stateAt_mask_length {eng : Engine} {opts : GenerationOptions} {st0 : LoopState} :
    ∀ {j : Nat} {st : LoopState}, stateAt eng opts st0 j = some st →
      st.curIDs.length = st0.curIDs.length + j ∧ st.curMask.length = st0.curMask.length + j := by
  intro j
  induction j with
  | zero => intro st h; simp only [stateAt, Option.some.injEq] at h; subst h; simp
  | succ n ih =>
    intro st h
    cases hs : stateAt eng opts st0 n with
    | none => simp [stateAt, hs] at h
    | some stn =>
      cases ho : stepOutcome eng opts n stn with
      | error msg => simp [stateAt, hs, ho] at h
      | ok p =>
        obtain ⟨st', ex⟩ := p
        simp only [stateAt, hs, ho, Option.some.injEq] at h
        subst h
        obtain ⟨t, hi, hm, _⟩ := stepOutcome_ok_spec ho
        obtain ⟨ih1, ih2⟩ := ih hs
        rw [hi, hm]
        simp [ih1, ih2]
        omega

theorem genLoop_advance (eng : Engine) (opts : GenerationOptions) (st0 : LoopState) :
    ∀ (m fuel : Nat), m ≤ fuel →
    (∀ j, j < m → ∃ st st', stateAt eng opts st0 j = some st ∧
      stepOutcome eng opts j st = .ok (st', false)) →
    ∃ stm, stateAt eng opts st0 m = some stm ∧
      genLoop eng opts fuel 0 st0 = genLoop eng opts (fuel - m) m stm ∧
      genLoopSteps eng opts fuel 0 st0 = m + genLoopSteps eng opts (fuel - m) m stm := by
  intro m
  induction m with
  | zero => intro fuel _ _; exact ⟨st0, rfl, by simp, by simp⟩
  | succ n ih =>
    intro fuel hle hpre
    obtain ⟨stn, hst, hgl, hgs⟩ := ih fuel (by omega) (fun j hj => hpre j (by omega))
    obtain ⟨st, st', hst2, ho⟩ := hpre n (by omega)
    rw [hst] at hst2
    have hstn : stn = st := Option.some.inj hst2
    subst hstn
    have hfs : fuel - n = (fuel - (n + 1)) + 1 := by omega
    refine ⟨st', stateAt_succ_ok hst ho, ?_, ?_⟩
    · rw [hgl, hfs, genLoop_succ_cont _ ho]
    · rw [hgs, hfs]
      simp only [genLoopSteps, ho]
      simp
      omega

theorem genLoop_allok {eng : Engine} {opts : GenerationOptions}
    (H : ∀ (step : Nat) (st : LoopState), ∃ st', stepOutcome eng opts step st = .ok (st', false)) :
    ∀ (fuel step : Nat) (st : LoopState),
      ∃ g, genLoop eng opts fuel step st = .ok g ∧ g.length = st.generated.length + fuel := by
  intro fuel
  induction fuel with
  | zero => intro step st; exact ⟨st.generated, rfl, by simp⟩
  | succ n ih =>
    intro step st
    obtain ⟨st', h⟩ := H step st
    obtain ⟨t, _, _, hg⟩ := stepOutcome_ok_spec h
    obtain ⟨g, hgl, hlen⟩ := ih (step + 1) st'
    refine ⟨g, ?_, ?_⟩
    · rw [genLoop_succ_cont _ h]; exact hgl
    · rw [hlen, hg]; simp; omega

theorem engZero_selectNext (step : Nat) (ids mask : List Int) :
    selectNext engZero step ids mask = .ok 0 := by
  cases ids with
  | nil => rfl
  | cons c t =>
    have hrun : engZero.run step (c :: t) mask =
        .ok ([1, ((c :: t).length : Int), 1], List.replicate (c :: t).length 0) := by
      simp [engZero]
    simp only [selectNext, hrun, List.length_cons, List.length_replicate]
    have hg : ([1, (((t.length + 1 : Nat)) : Int), 1] : List Int).getD 2 0 = 1 := rfl
    rw [hg]
    rw [if_neg (by simp)]
    rw [if_neg (by
      simp only [mul_one]
      push_cast
      rintro (h | h | h)
      · omega
      · exact False.elim h
      · omega)]
    have hstart : ((((t.length + 1 : Nat)) : Int) - 1) * 1 = (t.length : Int) := by
      push_cast; ring
    rw [hstart]
    rw [Int.toNat_natCast]
    rw [List.drop_replicate]
    have h1 : t.length + 1 - t.length = 1 := by omega
    rw [h1]
    rfl

theorem engZero_step (step : Nat) (st : LoopState) :
    ∃ st', stepOutcome engZero opts0 step st = .ok (st', false) := by
  refine ⟨⟨st.curIDs ++ [0], st.curMask ++ [1], st.generated ++ [0], st.fullText⟩, ?_⟩
  simp only [stepOutcome, engZero_selectNext]
  simp [stepTexts, engZero, applyStops, opts0]

theorem engZero_zzz_step (step : Nat) (st : LoopState) (hft : st.fullText = []) :
    stepOutcome engZero optsZZZ step st =
      .ok (⟨st.curIDs ++ [0], st.curMask ++ [1], st.generated ++ [0], []⟩, false) := by
  have htexts : stepTexts engZero optsZZZ 0 st = ([], [], false) := by
    simp only [stepTexts, engZero]
    rw [hft]
    rfl
  simp only [stepOutcome, engZero_selectNext, htexts]
  rfl

theorem engZero_zzz_stateAt (j : Nat) :
    ∃ st, stateAt engZero optsZZZ ⟨[7], [1], [], []⟩ j = some st ∧ st.fullText = [] := by
  induction j with
  | zero => exact ⟨⟨[7], [1], [], []⟩, rfl, rfl⟩
  | succ n ih =>
    obtain ⟨st, hst, hft⟩ := ih
    exact ⟨⟨st.curIDs ++ [0], st.curMask ++ [1], st.generated ++ [0], []⟩,
      stateAt_succ_ok hst (engZero_zzz_step n st hft), rfl⟩

theorem applyStops_nil_delta (stops : List (List Char)) (full : List Char) :
    (applyStops stops full []).2.1 = [] ∧
      ∃ m, (applyStops stops full []).1 = full.take m := by
  induction stops with
  | nil => exact ⟨rfl, full.length, by simp [applyStops]⟩
  | cons s rest ih =>
    by_cases hs : s = []
    · simpa [applyStops, hs] using ih
    · simp only [applyStops, if_neg hs]
      cases h : stringsIndex full s with
      | some idx => refine ⟨?_, idx, ?_⟩ <;> simp [h]
      | none => simp only [h]; exact ih

theorem stringsIndex_first (stop : List Char) :
    ∀ (full : List Char) (idx : Nat), stringsIndex full stop = some idx →
      stop.isPrefixOf (full.drop idx) = true ∧
        ∀ i, i < idx → stop.isPrefixOf (full.drop i) = false := by
  intro full
  induction full with
  | nil =>
    intro idx h
    simp only [stringsIndex] at h
    by_cases hp : stop.isPrefixOf ([] : List Char)
    · rw [if_pos hp] at h
      obtain rfl : idx = 0 := by simpa using h.symm
      exact ⟨by simpa using hp, fun i hi => absurd hi (by omega)⟩
    · rw [if_neg hp] at h
      exact absurd h (by simp)
  | cons c t ih =>
    intro idx h
    simp only [stringsIndex] at h
    by_cases hp : stop.isPrefixOf (c :: t)
    · rw [if_pos hp] at h
      obtain rfl : idx = 0 := by simpa using h.symm
      exact ⟨by simpa using hp, fun i hi => absurd hi (by omega)⟩
    · rw [if_neg hp] at h
      cases hrec : stringsIndex t stop with
      | none => rw [hrec] at h; exact absurd h (by simp)
      | some j =>
        rw [hrec] at h
        simp at h
        subst h
        obtain ⟨h1, h2⟩ := ih j hrec
        refine ⟨by simpa using h1, ?_⟩
        intro i hi
        cases i with
        | zero =>
          have hb : stop.isPrefixOf (c :: t) = false := by
            cases hpb : stop.isPrefixOf (c :: t) with
            | false => rfl
            | true => exact absurd hpb hp
          simpa using hb
        | succ i2 =>
          have := h2 i2 (by omega)
          simpa using this

theorem zeroShapeFrom_length (isCache : Bool) (total seqLen : Nat) :
    ∀ (ds : List Int) (i : Nat), (zeroShapeFrom isCache total seqLen i ds).length = ds.length := by
  intro ds
  induction ds with
  | nil => intro i; rfl
  | cons d rest ih => intro i; simp [zeroShapeFrom, ih]

theorem zeroShapeFrom_get (isCache : Bool) (total seqLen : Nat) :
    ∀ (ds : List Int) (i j : Nat),
      (zeroShapeFrom isCache total seqLen i ds)[j]? =
        (ds[j]?).map (zeroDimEntry isCache total (i + j) seqLen) := by
  intro ds
  induction ds with
  | nil => intro i j; simp [zeroShapeFrom]
  | cons d rest ih =>
    intro i j
    cases j with
    | zero => simp [zeroShapeFrom]
    | succ n =>
      have harith : i + 1 + n = i + (n + 1) := by omega
      simp only [zeroShapeFrom, List.getElem?_cons_succ, ih (i + 1) n, harith]

theorem zeroDimEntry_pos {d : Int} (isCache : Bool) (total i seqLen : Nat) (h : 0 < d) :
    zeroDimEntry isCache total i seqLen d = d := by
  simp only [zeroDimEntry, if_neg (by omega : ¬ d ≤ 0)]

theorem zeroDimEntry_cache {d : Int} (total i seqLen : Nat) (hd : d ≤ 0) :
    zeroDimEntry true total i seqLen d = if i = 0 then 1 else 0 := by
  simp [zeroDimEntry, hd]

theorem zeroDimEntry_noncache_trail {d : Int} (total i seqLen : Nat) (hd : d ≤ 0)
    (hi : i = total - 1) (hs : 0 < seqLen) :
    zeroDimEntry false total i seqLen d = (seqLen : Int) := by
  simp [zeroDimEntry, hd, hi, hs]

theorem zeroDimEntry_noncache_one {d : Int} (total i seqLen : Nat) (hd : d ≤ 0)
    (h : ¬(i = total - 1 ∧ 0 < seqLen)) :
    zeroDimEntry false total i seqLen d = 1 := by
  simp only [zeroDimEntry, if_pos hd]
  rw [if_neg (by simpa using fun a b => h ⟨a, b⟩)]
  split <;> rfl

theorem stepOutcome_sel_ok {eng : Engine} {opts : GenerationOptions} {step : Nat}
    {st : LoopState} {t : Int}
    (h : selectNext eng step st.curIDs st.curMask = .ok t) :
    ∃ b, stepOutcome eng opts step st =
      .ok (⟨st.curIDs ++ [t], st.curMask ++ [1], st.generated ++ [t],
        (stepTexts eng opts t st).1⟩, b) := by
  unfold stepOutcome
  rw [h]
  exact ⟨_, rfl⟩

/-! The claim theorems. -/

/-- C1. The claim states that in every decoding step the number of tensor
releases equals the number of tensor constructions on every exit path, in
particular when construction of the position_ids tensor fails. The code
violates this: with input names `[input_ids, attention_mask,
past_key_values.0.key, position_ids]`, where the zero cache tensor is built
successfully and then the position_ids tensor construction fails, the step
constructs 3 tensors but releases only 2 (the cache tensor in `toDestroy` is
leaked), unlike the sibling zero-tensor failure path, which balances (3
constructions, 3 releases). -/
theorem step_tensor_release_leak_on_position_ids_failure :
    stepTensorCount oPosFail
        ["input_ids", "attention_mask", "past_key_values.0.key", "position_ids"] =
      (false, 3, 2) ∧
    stepTensorCount oZeroFail
        ["input_ids", "attention_mask", "position_ids", "past_key_values.0.key"] =
      (false, 3, 3) ∧
    (3 : Nat) ≠ 2 :=
  ⟨rfl, rfl, by decide⟩

/-- C3. KVCacheStyle schema resolution: for the layer type list
`[full_attention, conv, full_attention]` the resolved inputs are, in order,
input_ids, attention_mask, position_ids, the key/value pair of layer 0, the
conv cache slot of layer 1, and the key/value pair of layer 2; the outputs
are logits followed by one `present.`-prefixed entry per non-core input in
the same order. -/
theorem lfm2IONames_kvcache_schema :
    lfm2IONames (some ["full_attention", "conv", "full_attention"]) =
      .ok (["input_ids", "attention_mask", "position_ids",
        "past_key_values.0.key", "past_key_values.0.value",
        "past_conv.1",
        "past_key_values.2.key", "past_key_values.2.value"],
        ["logits",
        "present.past_key_values.0.key", "present.past_key_values.0.value",
        "present.past_conv.1",
        "present.past_key_values.2.key", "present.past_key_values.2.value"]) := by
  rfl

/-- C4. Stop-string truncation: the stop scan truncates the accumulated text
at the first occurrence of the stop string (the index found is a match and no
earlier index is), and clears the delta text, marking the step
stop-triggered. Concretely, in a step whose accumulated text becomes
`abcSTOPxyz` with stop string `STOP`, the post-stop full text is `abc`, the
delta is empty, and the step exits stop-triggered. -/
theorem stop_string_truncation :
    (∀ (full stop : List Char) (idx : Nat), stringsIndex full stop = some idx →
      stop.isPrefixOf (full.drop idx) = true ∧
        ∀ i, i < idx → stop.isPrefixOf (full.drop i) = false) ∧
    (∀ (full delta stop : List Char) (idx : Nat), stop ≠ [] →
      stringsIndex full stop = some idx →
      applyStops [stop] full delta = (full.take idx, [], true)) ∧
    stepTexts engStop optsStop 0 ⟨[1], [1], [], "abc".data⟩ = ("abc".data, [], true) ∧
    stepOutcome engStop optsStop 0 ⟨[1], [1], [], "abc".data⟩ =
      .ok (⟨[1, 0], [1, 1], [0], "abc".data⟩, true) := by
  refine ⟨fun full stop idx h => stringsIndex_first stop full idx h, ?_, rfl, rfl⟩
  intro full delta stop idx hne hidx
  simp [applyStops, hne, hidx]

/-- Witness for C4: the general truncation components applied to the spec's
concrete example text and stop string. -/
theorem stop_string_truncation_witness :
    ("STOP".data.isPrefixOf ("abcSTOPxyz".data.drop 3) = true) ∧
    applyStops ["STOP".data] "abcSTOPxyz".data "xyz".data =
      ("abcSTOPxyz".data.take 3, [], true) :=
  ⟨(stop_string_truncation.1 "abcSTOPxyz".data "STOP".data 3 (by decide)).1,
    stop_string_truncation.2.1 "abcSTOPxyz".data "xyz".data "STOP".data 3 (by decide) (by decide)⟩

/-- C6. Sampling mode is not wired into the call path: for every engine,
input batch and option set, Generate with doSample true returns exactly what
Generate with doSample false returns — next-token selection is always the
greedy arg-max. -/
theorem generate_doSample_no_effect (eng : Engine) (inputIDs attentionMask : List (List Int))
    (opts : GenerationOptions) :
    Generate eng inputIDs attentionMask { opts with doSample := true } =
      Generate eng inputIDs attentionMask { opts with doSample := false } := by
  obtain ⟨m, d, s, ss⟩ := opts
  have hloop : ∀ (m1 m2 : Int) (d1 d2 : Bool) (fuel k : Nat) (st : LoopState),
      genLoop eng ⟨m1, d1, s, ss⟩ fuel k st = genLoop eng ⟨m2, d2, s, ss⟩ fuel k st := by
    intro m1 m2 d1 d2 fuel
    induction fuel with
    | zero => intro k st; rfl
    | succ n ih =>
      intro k st
      have hstep : stepOutcome eng ⟨m1, d1, s, ss⟩ k st = stepOutcome eng ⟨m2, d2, s, ss⟩ k st :=
        rfl
      simp only [genLoop, hstep]
      cases h2 : stepOutcome eng ⟨m2, d2, s, ss⟩ k st with
      | error e => rfl
      | ok p =>
        obtain ⟨st', ex⟩ := p
        cases ex
        · simp [ih]
        · simp
  by_cases hb : inputIDs.length ≠ 1 ∨ attentionMask.length ≠ 1
  · simp [Generate, hb]
  · simp only [Generate, if_neg hb, generateSimpleCausal]
    rw [hloop _ _ true false]

/-- C9. A tokenizer decode failure on the newly selected token leaves the
delta text empty and appends nothing to the accumulated text (the stop scan
can only truncate it), yet the step completes: the token is still appended
to the sequence and mask and the call is not aborted. -/
theorem decode_failure_degrades_to_empty_delta (eng : Engine) (opts : GenerationOptions)
    (step : Nat) (st : LoopState) (t : Int)
    (hsel : selectNext eng step st.curIDs st.curMask = .ok t)
    (hdec : eng.decode t = none) :
    (∃ b, stepOutcome eng opts step st =
      .ok (⟨st.curIDs ++ [t], st.curMask ++ [1], st.generated ++ [t],
        (applyStops opts.stopSequences st.fullText []).1⟩, b)) ∧
    (applyStops opts.stopSequences st.fullText []).2.1 = [] ∧
    (∃ m, (applyStops opts.stopSequences st.fullText []).1 = st.fullText.take m) := by
  have htexts : stepTexts eng opts t st = applyStops opts.stopSequences st.fullText [] := by
    simp [stepTexts, hdec]
  obtain ⟨hd, hm⟩ := applyStops_nil_delta opts.stopSequences st.fullText
  obtain ⟨b, hb⟩ := @stepOutcome_sel_ok eng opts step st t hsel
  rw [htexts] at hb
  exact ⟨⟨b, hb⟩, hd, hm⟩

/-- Witness for C9: the benign engine decodes nothing, so a step from a
concrete state appends token 0 and leaves the text state unchanged. -/
theorem decode_failure_degrades_to_empty_delta_witness :
    (∃ b, stepOutcome engZero opts0 0 ⟨[1], [1], [], []⟩ =
      .ok (⟨[1] ++ [0], [1] ++ [1], [] ++ [0],
        (applyStops opts0.stopSequences ([] : List Char) []).1⟩, b)) ∧
    (applyStops opts0.stopSequences ([] : List Char) []).2.1 = [] ∧
    (∃ m, (applyStops opts0.stopSequences ([] : List Char) []).1 = ([] : List Char).take m) :=
  decode_failure_degrades_to_empty_delta engZero opts0 0 ⟨[1], [1], [], []⟩ 0
    (engZero_selectNext 0 [1] [1]) rfl

/-- C8 (amended). Every completed loop iteration appends exactly one token id
to the sequence and one entry 1 to the attention mask, so the difference of
their lengths is invariant across steps; in particular, whenever the initial
id and mask lengths are equal, they remain equal at every step. (As stated,
the claim also asserted equality for inputs whose initial lengths differ;
the counterexample refutes that.) -/
theorem mask_ids_length_preserved :
    (∀ (eng : Engine) (opts : GenerationOptions) (step : Nat) (st st' : LoopState) (e : Bool),
      stepOutcome eng opts step st = .ok (st', e) →
      ∃ t, st'.curIDs = st.curIDs ++ [t] ∧ st'.curMask = st.curMask ++ [1]) ∧
    (∀ (eng : Engine) (opts : GenerationOptions) (st0 : LoopState) (j : Nat) (st : LoopState),
      stateAt eng opts st0 j = some st →
      (st.curIDs.length : Int) - st.curMask.length =
        (st0.curIDs.length : Int) - st0.curMask.length) ∧
    (∀ (eng : Engine) (opts : GenerationOptions) (st0 : LoopState) (j : Nat) (st : LoopState),
      st0.curIDs.length = st0.curMask.length → stateAt eng opts st0 j = some st →
      st.curIDs.length = st.curMask.length) := by
  refine ⟨?_, ?_, ?_⟩
  · intro eng opts step st st' e h
    obtain ⟨t, h1, h2, _⟩ := stepOutcome_ok_spec h
    exact ⟨t, h1, h2⟩
  · intro eng opts st0 j st h
    obtain ⟨h1, h2⟩ := stateAt_mask_length h
    omega
  · intro eng opts st0 j st h0 h
    obtain ⟨h1, h2⟩ := stateAt_mask_length h
    omega

/-- Witness for C8 (amended): starting from equal id and mask lengths, the
state after one step of the benign engine still has equal lengths. -/
theorem mask_ids_length_preserved_witness :
    (⟨[1, 0], [1, 1], [0], []⟩ : LoopState).curIDs.length =
      (⟨[1, 0], [1, 1], [0], []⟩ : LoopState).curMask.length :=
  mask_ids_length_preserved.2.2 engZero opts0 ⟨[1], [1], [], []⟩ 1
    ⟨[1, 0], [1, 1], [0], []⟩ rfl (by decide)

/-- Counterexample for C8 as stated: Generate accepts a batch-1 input whose
inner id and mask lengths differ (only the batch dimension is checked), and
after one loop iteration the id sequence has length 2 while the mask has
length 3 — the lengths are not equal. -/
theorem mask_ids_unequal_counterexample :
    Generate engZero [[1]] [[1, 1]] opts0 = .ok [[0, 0, 0]] ∧
    stateAt engZero opts0 ⟨[1], [1, 1], [], []⟩ 1 = some ⟨[1, 0], [1, 1, 1], [0], []⟩ ∧
    ¬((⟨[1, 0], [1, 1, 1], [0], []⟩ : LoopState).curIDs.length =
      (⟨[1, 0], [1, 1, 1], [0], []⟩ : LoopState).curMask.length) := by
  refine ⟨rfl, by decide, by decide⟩

/-- C10 (amended). The pipeline facade defaults max_new_tokens to 32 when
the call option is absent or of a non-int, non-float64 type, and 32 survives
Generate's normalization unchanged; the 128 substitution fires exactly when
the resolved value — the int as passed, or the float64 truncated toward zero
by int(t) — is non-positive. Because the truncation maps every positive
float64 below 1 to 0, the 128 default is also reachable by explicitly
passing such a positive float64, not only by passing a non-positive
value. -/
theorem pipeline_maxNewTokens_default :
    pipelineMaxNewTokens none = 32 ∧
    pipelineMaxNewTokens (some .other) = 32 ∧
    normalizeMaxNewTokens (pipelineMaxNewTokens none) = 32 ∧
    (∀ v, normalizeMaxNewTokens (pipelineMaxNewTokens v) ≠ pipelineMaxNewTokens v →
      (∃ x : Int, v = some (.int x) ∧ x ≤ 0) ∨
      (∃ q : Rat, v = some (.float q) ∧ float64ToInt q ≤ 0)) ∧
    (∀ q : Rat, 0 < q → q < 1 →
      normalizeMaxNewTokens (pipelineMaxNewTokens (some (.float q))) = 128) := by
  refine ⟨rfl, rfl, by decide, ?_, ?_⟩
  · intro v h
    rcases v with _ | gv
    · exact absurd rfl h
    · rcases gv with x | q | _
      · refine Or.inl ⟨x, rfl, ?_⟩
        by_contra hx
        exact h (by simp only [pipelineMaxNewTokens, normalizeMaxNewTokens]; rw [if_neg hx])
      · refine Or.inr ⟨q, rfl, ?_⟩
        by_contra hx
        exact h (by simp only [pipelineMaxNewTokens, normalizeMaxNewTokens]; rw [if_neg hx])
      · exact absurd rfl h
  · intro q hq0 hq1
    have hfl : float64ToInt q = 0 := by
      simp only [float64ToInt, if_pos (le_of_lt hq0)]
      exact Int.floor_eq_zero_iff.mpr (Set.mem_Ico.mpr ⟨le_of_lt hq0, hq1⟩)
    simp only [pipelineMaxNewTokens, hfl, normalizeMaxNewTokens]
    norm_num

/-- Witness for C10 (amended): the positive float64 value one half, truncated
to 0 by int(t), reaches the 128 default. -/
theorem pipeline_maxNewTokens_default_witness :
    normalizeMaxNewTokens (pipelineMaxNewTokens (some (GoValue.float (1/2)))) = 128 :=
  pipeline_maxNewTokens_default.2.2.2.2 (1/2) (by norm_num) (by norm_num)

/-- Counterexample for C10 as stated: the positive float64 value 0.5 is
truncated by int(t) (`hub.go` line 259) to 0, which is non-positive, so
Generate substitutes the 128 default — the 128 default is reachable without
passing a non-positive max_new_tokens. -/
theorem pipeline_positive_float_reaches_default :
    (0 : Rat) < 1/2 ∧
    pipelineMaxNewTokens (some (.float (1/2))) = 0 ∧
    normalizeMaxNewTokens (pipelineMaxNewTokens (some (.float (1/2)))) = 128 := by
  have hfl : float64ToInt (1/2 : Rat) = 0 := by
    rw [float64ToInt, if_pos (by norm_num)]
    exact Int.floor_eq_zero_iff.mpr (Set.mem_Ico.mpr ⟨by norm_num, by norm_num⟩)
  refine ⟨by norm_num, ?_, ?_⟩
  · simp only [pipelineMaxNewTokens, hfl]
  · simp only [pipelineMaxNewTokens, hfl, normalizeMaxNewTokens]
    norm_num

theorem stepOutcome_sel_eos {eng : Engine} {opts : GenerationOptions} {step : Nat}
    {st : LoopState}
    (h : selectNext eng step st.curIDs st.curMask = .ok eng.eosID)
    (heos : 0 ≤ eng.eosID) :
    stepOutcome eng opts step st =
      .ok (⟨st.curIDs ++ [eng.eosID], st.curMask ++ [1], st.generated ++ [eng.eosID],
        (stepTexts eng opts eng.eosID st).1⟩, true) := by
  unfold stepOutcome
  rw [h]
  simp [heos]

/-- C2. With maxNewTokens equal to some N at least 1, if the first N loop
iterations of the run all complete without error and without triggering any
exit condition — no configured stop string matches the accumulated text of
the run, the end-of-sequence condition never holds, the streamer never
cancels — then Generate returns exactly N generated token ids; and for any
engine and options whatsoever the loop executes at most N iterations. -/
theorem generate_returns_exactly_maxNewTokens (eng : Engine) (opts : GenerationOptions)
    (ids mask : List Int) (N : Nat) (hN1 : 1 ≤ N) (hN : opts.maxNewTokens = (N : Int))
    (H : ∀ j, j < N → ∃ st st', stateAt eng opts ⟨ids, mask, [], []⟩ j = some st ∧
      stepOutcome eng opts j st = .ok (st', false)) :
    (∃ g, Generate eng [ids] [mask] opts = .ok [g] ∧ g.length = N) ∧
    (∀ (eng2 : Engine) (opts2 : GenerationOptions) (s : Nat) (st : LoopState),
      genLoopSteps eng2 opts2 N s st ≤ N) := by
  constructor
  · have hnorm : normalizeMaxNewTokens opts.maxNewTokens = opts.maxNewTokens := by
      rw [hN]
      simp only [normalizeMaxNewTokens]
      rw [if_neg (by omega)]
    have hopts : { opts with maxNewTokens := normalizeMaxNewTokens opts.maxNewTokens } = opts := by
      rw [hnorm]
    have hfuel : opts.maxNewTokens.toNat = N := by rw [hN]; simp
    obtain ⟨stN, hstN, hgl, _⟩ :=
      genLoop_advance eng opts ⟨ids, mask, [], []⟩ N N (le_refl N) H
    have hglen : stN.generated.length = N := by
      have := stateAt_generated_length hstN
      simpa using this
    refine ⟨stN.generated, ?_, hglen⟩
    simp only [Generate, hopts]
    rw [if_neg (by simp)]
    simp only [generateSimpleCausal]
    rw [hfuel]
    simp only [List.headD]
    rw [hgl]
    have hNN : N - N = 0 := by omega
    rw [hNN, genLoop_zero]
    rfl
  · intro eng2 opts2 s st
    exact genLoopSteps_le eng2 opts2 N s st

/-- Witness for C2: a run of the benign engine with a configured stop string
`ZZZ` that never matches (decoding fails, so the accumulated text stays
empty) yields exactly three generated ids for maxNewTokens 3. -/
theorem generate_returns_exactly_maxNewTokens_witness :
    (∃ g, Generate engZero [[7]] [[1]] optsZZZ = .ok [g] ∧ g.length = 3) ∧
    (∀ (eng2 : Engine) (opts2 : GenerationOptions) (s : Nat) (st : LoopState),
      genLoopSteps eng2 opts2 3 s st ≤ 3) := by
  refine generate_returns_exactly_maxNewTokens engZero optsZZZ [7] [1] 3 (by omega) rfl ?_
  intro j hj
  obtain ⟨st, hst, hft⟩ := engZero_zzz_stateAt j
  exact ⟨st, _, hst, engZero_zzz_step j st hft⟩

/-- C5. If the configured end-of-sequence id is non-negative and is the
selected token at step k (steps 1-based, the first k-1 iterations completing
without exit), then Generate returns a generated sequence of length exactly
k ending in that end-of-sequence id, and exactly k loop iterations
execute. -/
theorem generate_stops_at_eos (eng : Engine) (opts : GenerationOptions)
    (ids mask : List Int) (N k : Nat)
    (hN : opts.maxNewTokens = (N : Int)) (hk1 : 1 ≤ k) (hkN : k ≤ N)
    (heos : 0 ≤ eng.eosID)
    (hpre : ∀ j, j < k - 1 → ∃ st st', stateAt eng opts ⟨ids, mask, [], []⟩ j = some st ∧
      stepOutcome eng opts j st = .ok (st', false))
    (hlast : ∃ st, stateAt eng opts ⟨ids, mask, [], []⟩ (k - 1) = some st ∧
      selectNext eng (k - 1) st.curIDs st.curMask = .ok eng.eosID) :
    ∃ g, Generate eng [ids] [mask] opts = .ok [g] ∧ g.length = k ∧
      g.getLast? = some eng.eosID ∧
      genLoopSteps eng opts N 0 ⟨ids, mask, [], []⟩ = k := by
  have hN1 : 1 ≤ N := le_trans hk1 hkN
  have hnorm : normalizeMaxNewTokens opts.maxNewTokens = opts.maxNewTokens := by
    rw [hN]
    simp only [normalizeMaxNewTokens]
    rw [if_neg (by omega)]
  have hopts : { opts with maxNewTokens := normalizeMaxNewTokens opts.maxNewTokens } = opts := by
    rw [hnorm]
  have hfuel : opts.maxNewTokens.toNat = N := by rw [hN]; simp
  obtain ⟨stm, hstm, hgl, hgs⟩ :=
    genLoop_advance eng opts ⟨ids, mask, [], []⟩ (k - 1) N (by omega) hpre
  obtain ⟨st, hst, hsel⟩ := hlast
  rw [hstm] at hst
  obtain rfl : stm = st := Option.some.inj hst
  have hNk : N - (k - 1) = (N - k) + 1 := by omega
  have hfinal : genLoop eng opts (N - (k - 1)) (k - 1) stm =
      .ok (stm.generated ++ [eng.eosID]) := by
    rw [hNk, genLoop_succ_exit _ (stepOutcome_sel_eos hsel heos)]
  have hglen : stm.generated.length = k - 1 := by
    have := stateAt_generated_length hstm
    simpa using this
  refine ⟨stm.generated ++ [eng.eosID], ?_, ?_, ?_, ?_⟩
  · simp only [Generate, hopts]
    rw [if_neg (by simp)]
    simp only [generateSimpleCausal]
    rw [hfuel]
    simp only [List.headD]
    rw [hgl, hfinal]
    rfl
  · simp [hglen]
    omega
  · rw [List.getLast?_append_cons]
    rfl
  · rw [hgs, hNk]
    have hone : genLoopSteps eng opts ((N - k) + 1) (k - 1) stm = 1 := by
      simp only [genLoopSteps, stepOutcome_sel_eos hsel heos]
      simp
    rw [hone]
    omega

/-- Witness for C5: from prompt [5], an engine with end-of-sequence id 0
selects it immediately, so one token is generated in one iteration. -/
theorem generate_stops_at_eos_witness :
    ∃ g, Generate engEos [[5]] [[1]] opts0 = .ok [g] ∧ g.length = 1 ∧
      g.getLast? = some engEos.eosID ∧
      genLoopSteps engEos opts0 3 0 ⟨[5], [1], [], []⟩ = 1 :=
  generate_stops_at_eos engEos opts0 [5] [1] 3 1 rfl (by omega) (by omega) (by decide)
    (fun j hj => absurd hj (by omega))
    ⟨⟨[5], [1], [], []⟩, rfl, rfl⟩

/-- C7 (amended). For a declared non-core input slot, the zero tensor's data
is all zeros of the declared element type with length the product of the
shape, and the shape is derived per dimension: a positive declared dimension
is kept; an undefined dimension on a cache/past-marked name becomes 1 at the
leading index and 0 elsewhere; an undefined dimension on a non-cache input
becomes the current sequence length at the trailing index when the sequence
length is positive, and 1 otherwise (in particular, the claimed
leading-dimension rule holds only when the leading dimension is not also a
trailing dimension subject to the sequence-length override). -/
theorem zeroTensor_shape_spec (inputInfo : List (String × InputOutputInfo)) (name : String)
    (seqLen : Nat) (info : InputOutputInfo)
    (hfound : inputInfo.lookup name = some info) :
    ∃ shape data,
      ((info.dataType = .int64 ∧
          zeroTensorForInput inputInfo name seqLen = .ok (.int64s data shape)) ∨
        (info.dataType = .float32 ∧
          zeroTensorForInput inputInfo name seqLen = .ok (.float32s data shape))) ∧
      data = List.replicate (shape.foldl (fun a d => a * d) 1).toNat 0 ∧
      shape.length = info.dims.length ∧
      (∀ (j : Nat) (d : Int), info.dims[j]? = some d →
        (0 < d → shape[j]? = some d) ∧
        (d ≤ 0 → isCacheName name = true → j = 0 → shape[j]? = some 1) ∧
        (d ≤ 0 → isCacheName name = true → 0 < j → shape[j]? = some 0) ∧
        (d ≤ 0 → isCacheName name = false → j + 1 = info.dims.length → 0 < seqLen →
          shape[j]? = some (seqLen : Int)) ∧
        (d ≤ 0 → isCacheName name = false → ¬(j + 1 = info.dims.length ∧ 0 < seqLen) →
          shape[j]? = some 1)) := by
  refine ⟨zeroShape (isCacheName name) info.dims seqLen,
    List.replicate ((zeroShape (isCacheName name) info.dims seqLen).foldl
      (fun a d => a * d) 1).toNat 0, ?_, rfl, ?_, ?_⟩
  · cases hdt : info.dataType with
    | int64 => exact Or.inl ⟨rfl, by simp only [zeroTensorForInput, hfound, hdt]⟩
    | float32 => exact Or.inr ⟨rfl, by simp only [zeroTensorForInput, hfound, hdt]⟩
  · simpa [zeroShape] using
      zeroShapeFrom_length (isCacheName name) info.dims.length seqLen info.dims 0
  · intro j d hd
    have hj : j < info.dims.length := by
      by_contra hjn
      rw [List.getElem?_eq_none (by omega)] at hd
      exact absurd hd (by simp)
    have hget : (zeroShape (isCacheName name) info.dims seqLen)[j]? =
        some (zeroDimEntry (isCacheName name) info.dims.length j seqLen d) := by
      rw [zeroShape, zeroShapeFrom_get]
      simp [hd]
    refine ⟨?_, ?_, ?_, ?_, ?_⟩
    · intro hdp
      rw [hget, zeroDimEntry_pos _ _ _ _ hdp]
    · intro hdn hc hj0
      rw [hget, hc, zeroDimEntry_cache _ _ _ hdn, if_pos hj0]
    · intro hdn hc hjp
      rw [hget, hc, zeroDimEntry_cache _ _ _ hdn, if_neg (by omega)]
    · intro hdn hc hjt hs
      rw [hget, hc, zeroDimEntry_noncache_trail _ _ _ hdn (by omega) hs]
    · intro hdn hc hno
      rw [hget, hc, zeroDimEntry_noncache_one _ _ _ hdn
        (by rintro ⟨h1, h2⟩; exact hno ⟨by omega, h2⟩)]

/-- Witness for C7 (amended): a cache-marked four-dimensional float input
with two undefined dimensions. -/
theorem zeroTensor_shape_spec_witness :
    ∃ shape data,
      (((⟨[-1, 8, -1, 64], .float32⟩ : InputOutputInfo).dataType = .int64 ∧
          zeroTensorForInput [("past_key_values.0.key", ⟨[-1, 8, -1, 64], .float32⟩)]
            "past_key_values.0.key" 4 = .ok (.int64s data shape)) ∨
        ((⟨[-1, 8, -1, 64], .float32⟩ : InputOutputInfo).dataType = .float32 ∧
          zeroTensorForInput [("past_key_values.0.key", ⟨[-1, 8, -1, 64], .float32⟩)]
            "past_key_values.0.key" 4 = .ok (.float32s data shape))) ∧
      data = List.replicate (shape.foldl (fun a d => a * d) 1).toNat 0 ∧
      shape.length = (⟨[-1, 8, -1, 64], .float32⟩ : InputOutputInfo).dims.length ∧
      (∀ (j : Nat) (d : Int),
        (⟨[-1, 8, -1, 64], .float32⟩ : InputOutputInfo).dims[j]? = some d →
        (0 < d → shape[j]? = some d) ∧
        (d ≤ 0 → isCacheName "past_key_values.0.key" = true → j = 0 → shape[j]? = some 1) ∧
        (d ≤ 0 → isCacheName "past_key_values.0.key" = true → 0 < j → shape[j]? = some 0) ∧
        (d ≤ 0 → isCacheName "past_key_values.0.key" = false →
          j + 1 = (⟨[-1, 8, -1, 64], .float32⟩ : InputOutputInfo).dims.length → 0 < 4 →
          shape[j]? = some ((4 : Nat) : Int)) ∧
        (d ≤ 0 → isCacheName "past_key_values.0.key" = false →
          ¬(j + 1 = (⟨[-1, 8, -1, 64], .float32⟩ : InputOutputInfo).dims.length ∧ 0 < 4) →
          shape[j]? = some 1)) :=
  zeroTensor_shape_spec [("past_key_values.0.key", ⟨[-1, 8, -1, 64], .float32⟩)]
    "past_key_values.0.key" 4 ⟨[-1, 8, -1, 64], .float32⟩ rfl

/-- Counterexample for C7 as stated: a non-cache input declared with a single
undefined dimension. The claim's rule says an undefined leading dimension
becomes 1, but the code's sequence-length override applies to it (it is also
the trailing dimension), producing shape [4] at sequence length 4, not 1. -/
theorem zeroTensor_leading_dim_counterexample :
    zeroTensorForInput [("foo", ⟨[-1], .int64⟩)] "foo" 4 = .ok (.int64s [0, 0, 0, 0] [4]) ∧
    isCacheName "foo" = false ∧
    ((4 : Int) ≠ 1) :=
  ⟨rfl, rfl, by decide⟩

end HfTransformersGo
